import Mathlib

/-!
Verification development for the `anti-rate-limit` task scheduler
(`src/antiRateLimit.ts`): a shallow embedding of the `AntiRateLimit`
class and proofs about its admission loop, priority queue, retry
lifecycle and counters.

The TypeScript code runs on a single-threaded cooperative event loop:
the only suspension point inside `processQueue` is `await task.execute()`,
so the atomic blocks of the program are
  (a) one iteration of the admission guard + dequeue + counter increments,
  (b) the completion handler of one task (resolve / retry-re-enqueue /
      reject, then `activeTasks--`),
  (c) the periodic timer body (`requestCount = 0`),
  (d) `addTask`'s push + sort.
We model the scheduler as a state machine whose events are exactly those
atomic blocks, with every admission opportunity running the greedy
admission loop (`processQueue`), as the code does after (b), (c), (d).
Task thunks are opaque: the outcome of each execution is supplied by the
environment on the completion event.
-/

/-- `RateLimiterOptions` from the source. `concurrency` and `retryLimit`
are optional in TypeScript; `maxRequests` and `interval` are required. -/
structure RateLimiterOptions where
  maxRequests : Nat
  interval : Nat
  concurrency : Option Nat
  retryLimit : Option Nat
deriving Repr, DecidableEq

/-- JavaScript's `x || d` applied to an optional numeric option:
`undefined` and `0` are both falsy and yield the default `d`. -/
def orFalsy (x : Option Nat) (d : Nat) : Nat :=
  match x with
  | none => d
  | some v => if v = 0 then d else v

/-- Outcome of one execution of a task's thunk (the promise either
fulfills with a value or rejects with a reason; both are opaque to the
scheduler, so we use `Nat` payloads). -/
inductive Outcome where
  | ok (v : Nat)
  | error (e : Nat)
deriving Repr, DecidableEq

/-- `InternalTask` from the source: the caller-supplied `id` and
`priority` plus the mutable `retries` counter. The `resolve`/`reject`
callbacks are modelled by the scheduler's completion log, keyed by
`seq`, a ghost arrival index recording submission order. -/
structure InternalTask where
  id : String
  priority : Option Int
  retries : Nat
  seq : Nat
deriving Repr, DecidableEq

/-- `t.priority || 0` from the sort comparator (priority defaults to 0). -/
def prio (t : InternalTask) : Int := t.priority.getD 0

/-- The mutable state of one `AntiRateLimit` instance. `running` lists
the tasks currently being executed (`activeTasks` in the source is its
length); `log` records each resolved or rejected completion slot as
`(seq, outcome)`, appended exactly when the source calls
`task.resolve` / `task.reject`; `nextSeq` is the ghost arrival counter. -/
structure SchedState where
  maxRequests : Nat
  interval : Nat
  concurrency : Nat
  retryLimit : Nat
  queue : List InternalTask
  running : List InternalTask
  requestCount : Nat
  nextSeq : Nat
  log : List (Nat × Outcome)
deriving Repr, DecidableEq

/-- `activeTasks` from the source: the number of tasks in flight. -/
def activeTasks (s : SchedState) : Nat := s.running.length

/-- The constructor: `concurrency = options.concurrency || 1`,
`retryLimit = options.retryLimit || 3`, counters start at 0. -/
def mkAntiRateLimit (o : RateLimiterOptions) : SchedState :=
  { maxRequests := o.maxRequests
    interval := o.interval
    concurrency := orFalsy o.concurrency 1
    retryLimit := orFalsy o.retryLimit 3
    queue := []
    running := []
    requestCount := 0
    nextSeq := 0
    log := [] }

/-- One step of the stable insertion used to model
`queue.sort((a, b) => (b.priority || 0) - (a.priority || 0))`:
`t` (which precedes the given list in the unsorted queue) is placed
before the first element whose priority is not strictly greater. -/
def insertTask (t : InternalTask) : List InternalTask → List InternalTask
  | [] => [t]
  | u :: us => if prio t < prio u then u :: insertTask t us else t :: u :: us

/-- The sort in `addTask`. `Array.prototype.sort` is stable (ES2019+),
and a stable sort's output is uniquely determined by the comparator and
the input order, so stable insertion sort is an exact model: descending
priority, ties kept in pre-sort order. -/
def sortQueue : List InternalTask → List InternalTask
  | [] => []
  | t :: ts => insertTask t (sortQueue ts)

/-- The guard of the `while` loop in `processQueue`. -/
def canAdmit (s : SchedState) : Bool :=
  !s.queue.isEmpty && activeTasks s < s.concurrency
    && s.requestCount < s.maxRequests

/-- The atomic body of one admission: `queue.shift()`, `activeTasks++`,
`requestCount++`, and the shifted task begins executing (joins
`running`). Only ever applied under the `canAdmit` guard. -/
def admitOne (s : SchedState) : SchedState :=
  match s.queue with
  | [] => s
  | t :: rest =>
    { s with queue := rest
             running := s.running ++ [t]
             requestCount := s.requestCount + 1 }

/-- The admission loop, fuelled: each admission removes one queued task,
so `s.queue.length` fuel always reaches the loop's fixpoint. -/
def processQueueAux : Nat → SchedState → SchedState
  | 0, s => s
  | n + 1, s => if canAdmit s then processQueueAux n (admitOne s) else s

/-- `processQueue`: admit tasks while the queue is non-empty and both
the concurrency gate and the window counter have headroom. -/
def processQueue (s : SchedState) : SchedState :=
  processQueueAux s.queue.length s

/-- `addTask`: wrap the task with `retries = 0`, push it, sort the whole
queue by descending priority (stably), and run the admission loop. -/
def addTask (s : SchedState) (id : String) (priority : Option Int) :
    SchedState :=
  processQueue
    { s with
      queue := sortQueue (s.queue ++
        [{ id := id, priority := priority, retries := 0,
           seq := s.nextSeq }])
      nextSeq := s.nextSeq + 1 }

/-- The completion handler for the `i`-th running task, without the
trailing `processQueue` call: on success, resolve (log) the task; on
failure, either increment `retries` and push the task to the back of the
queue (note: `queue.push`, no sort), or reject (log) it; in both cases
`activeTasks--` (the task leaves `running`). -/
def completeCore (s : SchedState) (i : Nat) (out : Outcome) : SchedState :=
  match s.running[i]? with
  | none => s
  | some t =>
    match out with
    | Outcome.ok v =>
      { s with running := s.running.eraseIdx i
               log := s.log ++ [(t.seq, Outcome.ok v)] }
    | Outcome.error e =>
      if t.retries < s.retryLimit then
        { s with running := s.running.eraseIdx i
                 queue := s.queue ++ [{ t with retries := t.retries + 1 }] }
      else
        { s with running := s.running.eraseIdx i
                 log := s.log ++ [(t.seq, Outcome.error e)] }

/-- A task completion: the handler followed by the `finally` block's
re-invocation of `processQueue`. -/
def complete (s : SchedState) (i : Nat) (out : Outcome) : SchedState :=
  processQueue (completeCore s i out)

/-- The periodic timer body from the constructor:
`requestCount = 0; processQueue()`. -/
def windowReset (s : SchedState) : SchedState :=
  processQueue { s with requestCount := 0 }

/-- The environment-visible events of the scheduler, one per atomic
block of the source (see the header comment). -/
inductive Ev where
  | submit (id : String) (priority : Option Int)
  | complete (i : Nat) (out : Outcome)
  | reset
  | pass
deriving Repr, DecidableEq

/-- Interpret one event. -/
def step (s : SchedState) (e : Ev) : SchedState :=
  match e with
  | Ev.submit id p => addTask s id p
  | Ev.complete i out => complete s i out
  | Ev.reset => windowReset s
  | Ev.pass => processQueue s

/-- Run a trace of events. -/
def run (s : SchedState) (es : List Ev) : SchedState := es.foldl step s

/-- The per-task retry lifecycle carved out of `processQueue`
(lines 71–80 of the source): `exec k` is the outcome of the execution
performed while the task's `retries` field equals `k`. Returns the
outcome with which the task's promise settles and the total number of
executions performed from retry count `retries` on. On success the task
resolves; on failure it is retried while `retries < retryLimit`
(incrementing `retries`), otherwise rejected with that failure. -/
def taskLifecycle (retryLimit : Nat) (exec : Nat → Outcome)
    (retries : Nat) : Outcome × Nat :=
  match exec retries with
  | Outcome.ok v => (Outcome.ok v, 1)
  | Outcome.error e =>
    if h : retries < retryLimit then
      let r := taskLifecycle retryLimit exec (retries + 1)
      (r.1, r.2 + 1)
    else
      (Outcome.error e, 1)
termination_by retryLimit + 1 - retries
decreasing_by omega

/-- The public members of the `AntiRateLimit` class: the source declares
exactly one public method, `addTask` (line 44); the constructor (lines
30–41) starts `setInterval` and discards its handle — no field stores
the timer and no member clears it. -/
def publicMembers : List String := ["addTask"]

/-- Whether the public surface offers any operation besides `addTask`
(in particular, any way to stop the window-reset timer). -/
def hasStopOperation : Bool :=
  publicMembers.any (fun m => m != "addTask")

/-! ### Retry lifecycle (C5, C6) -/

/-- Helper: if every execution fails, the lifecycle from retry count `r`
(with `r + d = retryLimit`) performs the remaining `retryLimit + 1 - r`
executions and settles with the outcome of the final one. -/
theorem taskLifecycle_allFail (retryLimit : Nat) (exec : Nat → Outcome)
    (hf : ∀ k, ∃ e, exec k = Outcome.error e) :
    ∀ d r, r + d = retryLimit →
      taskLifecycle retryLimit exec r = (exec retryLimit, retryLimit + 1 - r) := by
  intro d
  induction d with
  | zero =>
    intro r hr
    have hrl : r = retryLimit := by omega
    subst hrl
    obtain ⟨e, he⟩ := hf r
    rw [taskLifecycle]
    simp [he]
  | succ d ih =>
    intro r hr
    obtain ⟨e, he⟩ := hf r
    rw [taskLifecycle]
    have hlt : r < retryLimit := by omega
    have hrec := ih (r + 1) (by omega)
    simp [he, hlt, hrec]
    omega

/-- C5: for every task whose thunk fails on every execution, the future
returned by `addTask` is rejected after exactly `retryLimit + 1`
executions, and the rejection reason is the outcome of the final
execution (`exec retryLimit`, the attempt made at retry count
`retryLimit`); earlier failure reasons are discarded. -/
theorem c5_always_fail_rejected_after_retryLimit_succ
    (retryLimit : Nat) (exec : Nat → Outcome)
    (hf : ∀ k, ∃ e, exec k = Outcome.error e) :
    taskLifecycle retryLimit exec 0 = (exec retryLimit, retryLimit + 1) := by
  have h := taskLifecycle_allFail retryLimit exec hf retryLimit 0 (by omega)
  simpa using h

/-- Witness for C5 at `retryLimit = 2` with reasons `10, 11, 12`:
three executions, rejected with the last reason `12`. -/
theorem c5_always_fail_witness :
    (∀ k, ∃ e, (fun n => Outcome.error (n + 10)) k = Outcome.error e) ∧
    taskLifecycle 2 (fun n => Outcome.error (n + 10)) 0 = (Outcome.error 12, 3) :=
  ⟨fun k => ⟨k + 10, rfl⟩,
   c5_always_fail_rejected_after_retryLimit_succ 2 (fun n => Outcome.error (n + 10))
     (fun k => ⟨k + 10, rfl⟩)⟩

/-- Helper: if executions below `retryLimit` fail and the one at
`retryLimit` succeeds with `v`, the lifecycle from retry count `r`
resolves with `v` after the remaining `retryLimit + 1 - r` executions. -/
theorem taskLifecycle_failThenOk (retryLimit : Nat) (exec : Nat → Outcome)
    (v : Nat) (hf : ∀ k, k < retryLimit → ∃ e, exec k = Outcome.error e)
    (hs : exec retryLimit = Outcome.ok v) :
    ∀ d r, r + d = retryLimit →
      taskLifecycle retryLimit exec r = (Outcome.ok v, retryLimit + 1 - r) := by
  intro d
  induction d with
  | zero =>
    intro r hr
    have hrl : r = retryLimit := by omega
    subst hrl
    rw [taskLifecycle]
    simp [hs]
  | succ d ih =>
    intro r hr
    obtain ⟨e, he⟩ := hf r (by omega)
    rw [taskLifecycle]
    have hlt : r < retryLimit := by omega
    have hrec := ih (r + 1) (by omega)
    simp [he, hlt, hrec]
    omega

/-- C6: a task whose thunk fails on its first `retryLimit` executions
and succeeds on the next resolves successfully with that result, after
exactly `retryLimit + 1` executions in total. -/
theorem c6_fail_then_succeed_resolves (retryLimit : Nat)
    (exec : Nat → Outcome) (v : Nat)
    (hf : ∀ k, k < retryLimit → ∃ e, exec k = Outcome.error e)
    (hs : exec retryLimit = Outcome.ok v) :
    taskLifecycle retryLimit exec 0 = (Outcome.ok v, retryLimit + 1) := by
  have h := taskLifecycle_failThenOk retryLimit exec v hf hs retryLimit 0 (by omega)
  simpa using h

/-- Witness for C6 at `retryLimit = 2`: two failures then success with
42; three executions, resolved with 42. -/
theorem c6_fail_then_succeed_witness :
    (∀ k, k < 2 → ∃ e,
      (fun n => if n < 2 then Outcome.error n else Outcome.ok 42) k = Outcome.error e) ∧
    (fun n => if n < 2 then Outcome.error n else Outcome.ok 42) 2 = Outcome.ok 42 ∧
    taskLifecycle 2 (fun n => if n < 2 then Outcome.error n else Outcome.ok 42) 0
      = (Outcome.ok 42, 3) :=
  ⟨fun k hk => ⟨k, by simp [hk]⟩, rfl,
   c6_fail_then_succeed_resolves 2
     (fun n => if n < 2 then Outcome.error n else Outcome.ok 42) 42
     (fun k hk => ⟨k, by simp [hk]⟩) rfl⟩

/-! ### Constructor coercions (C10, C1) and public surface (C9) -/

/-- C10: a falsy `concurrency` option (`0` or absent) is coerced to the
default 1 by the constructor, and such a scheduler still launches tasks:
submitting one task to a fresh instance puts it in flight. -/
theorem c10_falsy_concurrency_defaults_to_one (o : RateLimiterOptions)
    (hc : o.concurrency = some 0 ∨ o.concurrency = none)
    (hm : 1 ≤ o.maxRequests) :
    (mkAntiRateLimit o).concurrency = 1 ∧
    activeTasks (addTask (mkAntiRateLimit o) "t" none) = 1 := by
  have h1 : orFalsy o.concurrency 1 = 1 := by
    rcases hc with h | h <;> simp [orFalsy, h]
  refine ⟨by simp [mkAntiRateLimit, h1], ?_⟩
  have hm0 : 0 < o.maxRequests := hm
  simp [addTask, mkAntiRateLimit, sortQueue, insertTask, processQueue,
    processQueueAux, canAdmit, admitOne, activeTasks, h1, hm0]

/-- Witness for C10: `concurrency = 0` with `maxRequests = 10`. -/
theorem c10_falsy_concurrency_witness :
    (((⟨10, 1000, some 0, some 3⟩ : RateLimiterOptions).concurrency = some 0 ∨
      (⟨10, 1000, some 0, some 3⟩ : RateLimiterOptions).concurrency = none) ∧
     1 ≤ (⟨10, 1000, some 0, some 3⟩ : RateLimiterOptions).maxRequests) ∧
    (mkAntiRateLimit ⟨10, 1000, some 0, some 3⟩).concurrency = 1 ∧
    activeTasks (addTask (mkAntiRateLimit ⟨10, 1000, some 0, some 3⟩) "t" none) = 1 :=
  ⟨⟨Or.inl rfl, by decide⟩,
   c10_falsy_concurrency_defaults_to_one ⟨10, 1000, some 0, some 3⟩
     (Or.inl rfl) (by decide)⟩

/-- C1 (code bug): constructing with `retryLimit = 0` does NOT yield a
scheduler that never retries. `options.retryLimit || 3` coerces the
falsy `0` to the default `3`, so a task whose thunk always fails is
executed 4 times (not once) before its future is rejected. -/
theorem c1_retryLimit_zero_is_coerced_to_three :
    (mkAntiRateLimit ⟨5, 1000, none, some 0⟩).retryLimit = 3 ∧
    taskLifecycle (mkAntiRateLimit ⟨5, 1000, none, some 0⟩).retryLimit
      (fun _ => Outcome.error 7) 0 = (Outcome.error 7, 4) := by
  constructor
  · rfl
  · have h := taskLifecycle_allFail 3 (fun _ => Outcome.error 7)
      (fun _ => ⟨7, rfl⟩) 3 0 (by omega)
    simpa [mkAntiRateLimit, orFalsy] using h

/-- C9 (code bug): the public surface of `AntiRateLimit` is `addTask`
alone; the `setInterval` handle is discarded by the constructor, so no
operation can stop the recurring window-reset timer. -/
theorem c9_no_stop_operation : hasStopOperation = false := rfl

/-! ### Idempotence of the scheduling pass (C8) -/

/-- Each guarded admission removes one queued task, so running the loop
with fuel at least the queue length drives the guard to false. -/
theorem canAdmit_processQueueAux_false (n : Nat) :
    ∀ s : SchedState, s.queue.length ≤ n →
      canAdmit (processQueueAux n s) = false := by
  induction n with
  | zero =>
    intro s hlen
    have hq : s.queue = [] := List.eq_nil_of_length_eq_zero (by omega)
    simp [processQueueAux, canAdmit, hq]
  | succ n ih =>
    intro s hlen
    by_cases hc : canAdmit s
    · have hq : s.queue ≠ [] := by
        intro hq
        simp [canAdmit, hq] at hc
      obtain ⟨t, rest, hq⟩ := List.exists_cons_of_ne_nil hq
      have hlen2 : (admitOne s).queue.length ≤ n := by
        simp [admitOne, hq]
        have := hlen
        rw [hq] at this
        simp at this
        omega
      simp [processQueueAux, hc]
      exact ih (admitOne s) hlen2
    · simp [processQueueAux, hc]

/-- A state whose guard is false is a fixpoint of the admission loop. -/
theorem processQueueAux_of_not_canAdmit (n : Nat) (s : SchedState)
    (h : canAdmit s = false) : processQueueAux n s = s := by
  cases n <;> simp [processQueueAux, h]

/-- After a full pass the guard is false. -/
theorem canAdmit_processQueue_false (s : SchedState) :
    canAdmit (processQueue s) = false :=
  canAdmit_processQueueAux_false s.queue.length s (Nat.le_refl _)

/-- A full pass reaches a fixpoint of the pass. -/
theorem processQueue_idem (s : SchedState) :
    processQueue (processQueue s) = processQueue s :=
  processQueueAux_of_not_canAdmit _ _ (canAdmit_processQueue_false s)

/-- C8: the scheduling pass is idempotent — from a state with queue,
window counter and gate counter unchanged, any number of further
invocations of `processQueue` leaves the state (hence the set of
dequeued tasks and both counters) exactly as a single invocation does:
no double-dequeue, no extra gate acquisition. -/
theorem c8_processQueue_idempotent (s : SchedState) (n : Nat) :
    processQueue^[n] (processQueue s) = processQueue s := by
  induction n with
  | zero => rfl
  | succ n ih => rw [Function.iterate_succ_apply, processQueue_idem, ih]

/-! ### Counter invariants (C3) -/

/-- A guarded admission keeps both counters within their bounds. -/
theorem admitOne_counters (s : SchedState) (hc : canAdmit s = true) :
    activeTasks (admitOne s) ≤ (admitOne s).concurrency ∧
    (admitOne s).requestCount ≤ (admitOne s).maxRequests := by
  have h1 : activeTasks s < s.concurrency := by
    simp [canAdmit] at hc
    exact hc.1.2
  have h2 : s.requestCount < s.maxRequests := by
    simp [canAdmit] at hc
    exact hc.2
  cases hq : s.queue with
  | nil => simp [canAdmit, hq] at hc
  | cons t rest =>
    constructor
    · simp [admitOne, hq, activeTasks]
      have : activeTasks s = s.running.length := rfl
      omega
    · simp [admitOne, hq]
      omega

/-- The admission loop preserves the counter bounds. -/
theorem processQueueAux_counters (n : Nat) :
    ∀ s : SchedState,
      activeTasks s ≤ s.concurrency → s.requestCount ≤ s.maxRequests →
      activeTasks (processQueueAux n s) ≤ (processQueueAux n s).concurrency ∧
      (processQueueAux n s).requestCount ≤ (processQueueAux n s).maxRequests := by
  induction n with
  | zero => intro s h1 h2; exact ⟨h1, h2⟩
  | succ n ih =>
    intro s h1 h2
    by_cases hc : canAdmit s
    · simp [processQueueAux, hc]
      have := admitOne_counters s hc
      exact ih (admitOne s) this.1 this.2
    · simp [processQueueAux, hc]
      exact ⟨h1, h2⟩

/-- A full pass preserves the counter bounds. -/
theorem processQueue_counters (s : SchedState)
    (h1 : activeTasks s ≤ s.concurrency)
    (h2 : s.requestCount ≤ s.maxRequests) :
    activeTasks (processQueue s) ≤ (processQueue s).concurrency ∧
    (processQueue s).requestCount ≤ (processQueue s).maxRequests :=
  processQueueAux_counters s.queue.length s h1 h2

/-- The completion handler never increases the in-flight count and
leaves the window counter unchanged. -/
theorem completeCore_counters (s : SchedState) (i : Nat) (out : Outcome)
    (h1 : activeTasks s ≤ s.concurrency)
    (h2 : s.requestCount ≤ s.maxRequests) :
    activeTasks (completeCore s i out) ≤ (completeCore s i out).concurrency ∧
    (completeCore s i out).requestCount ≤ (completeCore s i out).maxRequests := by
  have herase : (s.running.eraseIdx i).length ≤ s.running.length :=
    List.Sublist.length_le (List.eraseIdx_sublist s.running i)
  cases hget : s.running[i]? with
  | none => simpa [completeCore, hget] using ⟨h1, h2⟩
  | some t =>
    cases out with
    | ok v =>
      refine ⟨?_, by simp [completeCore, hget, h2]⟩
      simp only [completeCore, hget, activeTasks]
      simp only [activeTasks] at h1
      omega
    | error e =>
      by_cases hr : t.retries < s.retryLimit
      · refine ⟨?_, by simp [completeCore, hget, hr, h2]⟩
        simp only [completeCore, hget, if_pos hr, activeTasks]
        simp only [activeTasks] at h1
        omega
      · refine ⟨?_, by simp [completeCore, hget, hr, h2]⟩
        simp only [completeCore, hget, if_neg hr, activeTasks]
        simp only [activeTasks] at h1
        omega

/-- Every event preserves the counter bounds. -/
theorem step_counters (s : SchedState) (e : Ev)
    (h1 : activeTasks s ≤ s.concurrency)
    (h2 : s.requestCount ≤ s.maxRequests) :
    activeTasks (step s e) ≤ (step s e).concurrency ∧
    (step s e).requestCount ≤ (step s e).maxRequests := by
  cases e with
  | submit id p =>
    exact processQueue_counters _ h1 h2
  | complete i out =>
    have h := completeCore_counters s i out h1 h2
    exact processQueue_counters _ h.1 h.2
  | reset =>
    exact processQueue_counters _ h1 (Nat.zero_le _)
  | pass =>
    exact processQueue_counters s h1 h2

/-- C3: along every event trace from a freshly constructed scheduler,
the in-flight count stays in `[0, concurrency]` and the window counter
(the number of admissions since the last reset) stays in
`[0, maxRequests]` — the lower bounds are inherent to `Nat`. -/
theorem c3_counters_within_bounds (o : RateLimiterOptions) (es : List Ev) :
    activeTasks (run (mkAntiRateLimit o) es)
        ≤ (run (mkAntiRateLimit o) es).concurrency ∧
    (run (mkAntiRateLimit o) es).requestCount
        ≤ (run (mkAntiRateLimit o) es).maxRequests := by
  suffices h : ∀ s : SchedState,
      activeTasks s ≤ s.concurrency → s.requestCount ≤ s.maxRequests →
      activeTasks (run s es) ≤ (run s es).concurrency ∧
      (run s es).requestCount ≤ (run s es).maxRequests by
    exact h (mkAntiRateLimit o) (by simp [mkAntiRateLimit, activeTasks])
      (by simp [mkAntiRateLimit])
  induction es with
  | nil => intro s h1 h2; exact ⟨h1, h2⟩
  | cons e es ih =>
    intro s h1 h2
    have h := step_counters s e h1 h2
    exact ih (step s e) h.1 h.2

/-! ### Retry re-enqueue placement (C2) and its counterexample -/

/-- Shared concrete scenario: `concurrency = 1`; submit task "A" with
priority 5 (admitted at once), then task "B" with priority 1 (queued);
then A's execution fails. A is re-enqueued behind B and B is dequeued
at the resulting admission opportunity although A's priority is higher. -/
def cexOptions : RateLimiterOptions :=
  { maxRequests := 10, interval := 1000, concurrency := some 1,
    retryLimit := some 3 }

/-- The submissions of the shared scenario, before the failure. -/
def cexSubmits : List Ev := [Ev.submit "A" (some 5), Ev.submit "B" (some 1)]

/-- The state after both submissions: A running, B queued. -/
def cexLoaded : SchedState := run (mkAntiRateLimit cexOptions) cexSubmits

/-- The state after A's execution fails. -/
def cexAfterFail : SchedState := complete cexLoaded 0 (Outcome.error 0)

/-- C2 counterexample: the retried priority-5 task does NOT re-enter
priority ordering at the next admission opportunity. After A (priority
5) fails, B (priority 1) is the task admitted (it is the one in
flight), while A sits in the queue: the retried task was deferred, not
treated as freshly submitted. -/
theorem c2_counterexample_retry_not_reprioritized :
    cexAfterFail.running
        = [{ id := "B", priority := some 1, retries := 0, seq := 1 }] ∧
    cexAfterFail.queue
        = [{ id := "A", priority := some 5, retries := 1, seq := 0 }] := by
  decide

/-- C2 (amended): a task that fails with retry count below the limit is
appended to the BACK of the queue without re-sorting (`queue.push`); it
is therefore behind every currently queued task regardless of priority,
and only a later `addTask` (which sorts the whole queue) restores its
priority position. -/
theorem c2_retry_appended_at_back (s : SchedState) (i e : Nat)
    (t : InternalTask) (ht : s.running[i]? = some t)
    (hr : t.retries < s.retryLimit) :
    (completeCore s i (Outcome.error e)).queue
      = s.queue ++ [{ t with retries := t.retries + 1 }] := by
  simp [completeCore, ht, hr]

/-- Witness for the amended C2 on the shared scenario: A is appended
behind B. -/
theorem c2_retry_appended_witness :
    cexLoaded.running[0]?
        = some { id := "A", priority := some 5, retries := 0, seq := 0 } ∧
    ({ id := "A", priority := some 5, retries := 0, seq := 0 }
        : InternalTask).retries < cexLoaded.retryLimit ∧
    (completeCore cexLoaded 0 (Outcome.error 0)).queue
      = cexLoaded.queue ++ [{ id := "A", priority := some 5, retries := 1, seq := 0 }] :=
  ⟨by decide, by decide,
   c2_retry_appended_at_back cexLoaded 0 0
     { id := "A", priority := some 5, retries := 0, seq := 0 }
     (by decide) (by decide)⟩

/-! ### Failure isolation (C7) -/

/-- All task records held by the scheduler: queued and in flight. -/
def tasksOf (s : SchedState) : List InternalTask := s.queue ++ s.running

/-- Indexing a list hits an element; removing that index leaves a
permutation witness. -/
theorem perm_cons_eraseIdx {α : Type} (l : List α) :
    ∀ (i : Nat) (t : α), l[i]? = some t →
      List.Perm l (t :: l.eraseIdx i) := by
  induction l with
  | nil => intro i t h; simp at h
  | cons a as ih =>
    intro i t h
    cases i with
    | zero =>
      simp at h
      subst h
      simp
    | succ i =>
      simp at h
      have hperm := ih i t h
      have hsw : List.Perm (a :: t :: as.eraseIdx i) (t :: a :: as.eraseIdx i) :=
        List.Perm.swap t a _
      simpa using (hperm.cons a).trans hsw

/-- An admission moves one task from the queue to `running`: the held
tasks are preserved up to permutation and the log is untouched. -/
theorem tasksOf_admitOne (s : SchedState) :
    List.Perm (tasksOf (admitOne s)) (tasksOf s) ∧ (admitOne s).log = s.log := by
  cases hq : s.queue with
  | nil => simp [admitOne, hq]
  | cons t rest =>
    refine ⟨?_, by simp [admitOne, hq]⟩
    simp only [admitOne, hq, tasksOf]
    have h1 : List.Perm (s.running ++ [t]) (t :: s.running) :=
      List.perm_append_singleton t s.running
    have h2 : List.Perm (rest ++ (s.running ++ [t])) (rest ++ (t :: s.running)) :=
      h1.append_left rest
    have h3 : List.Perm (rest ++ t :: s.running) (t :: (rest ++ s.running)) :=
      List.perm_middle
    simpa using h2.trans h3

/-- The admission loop preserves the held tasks up to permutation and
never touches the log. -/
theorem tasksOf_processQueueAux (n : Nat) :
    ∀ s : SchedState,
      List.Perm (tasksOf (processQueueAux n s)) (tasksOf s) ∧
      (processQueueAux n s).log = s.log := by
  induction n with
  | zero => intro s; exact ⟨List.Perm.refl _, rfl⟩
  | succ n ih =>
    intro s
    by_cases hc : canAdmit s
    · simp only [processQueueAux, hc, if_true]
      have h1 := tasksOf_admitOne s
      have h2 := ih (admitOne s)
      exact ⟨h2.1.trans h1.1, h2.2.trans h1.2⟩
    · simp only [processQueueAux, hc, if_false]
      exact ⟨List.Perm.refl _, rfl⟩

/-- A full pass preserves the held tasks up to permutation and the log. -/
theorem tasksOf_processQueue (s : SchedState) :
    List.Perm (tasksOf (processQueue s)) (tasksOf s) ∧
    (processQueue s).log = s.log :=
  tasksOf_processQueueAux s.queue.length s

/-- The failure handler changes only the failing task's records: every
task whose `seq` differs is held exactly as before (up to position), and
no completion slot of another task is resolved. -/
theorem completeCore_error_siblings (s : SchedState) (i e : Nat)
    (t : InternalTask) (ht : s.running[i]? = some t) :
    List.Perm
      ((tasksOf (completeCore s i (Outcome.error e))).filter
        (fun u => u.seq != t.seq))
      ((tasksOf s).filter (fun u => u.seq != t.seq)) ∧
    (completeCore s i (Outcome.error e)).log.filter (fun p => p.1 != t.seq)
      = s.log.filter (fun p => p.1 != t.seq) := by
  have hrun : List.Perm s.running (t :: s.running.eraseIdx i) :=
    perm_cons_eraseIdx s.running i t ht
  have hall : List.Perm (tasksOf s) (s.queue ++ t :: s.running.eraseIdx i) :=
    hrun.append_left s.queue
  have hfilt := hall.filter (fun u => u.seq != t.seq)
  have hft : ((fun u => u.seq != t.seq) t) = false := by simp
  by_cases hr : t.retries < s.retryLimit
  · refine ⟨?_, by simp [completeCore, ht, hr]⟩
    simp only [completeCore, ht, if_pos hr, tasksOf]
    refine List.Perm.trans ?_ hfilt.symm
    simp [List.filter_append, List.filter_cons, hft]
  · refine ⟨?_, by simp [completeCore, ht, hr, List.filter_append, List.filter_cons]⟩
    simp only [completeCore, ht, if_neg hr, tasksOf]
    refine List.Perm.trans ?_ hfilt.symm
    simp [List.filter_append, List.filter_cons, hft]

/-- C7: a thunk failure is absorbed by the scheduler and leaves every
sibling task's lifecycle untouched — after a failing completion (and
the admission pass it triggers), every task with a different `seq` is
still held by the scheduler with an unchanged record, and the log (the
resolved/rejected completion slots) of every other task is unchanged;
the failure reason is consumed by the handler, never re-thrown. -/
theorem c7_failure_leaves_siblings_unchanged (s : SchedState) (i e : Nat)
    (t : InternalTask) (ht : s.running[i]? = some t) :
    List.Perm
      ((tasksOf (complete s i (Outcome.error e))).filter
        (fun u => u.seq != t.seq))
      ((tasksOf s).filter (fun u => u.seq != t.seq)) ∧
    (complete s i (Outcome.error e)).log.filter (fun p => p.1 != t.seq)
      = s.log.filter (fun p => p.1 != t.seq) := by
  have hcore := completeCore_error_siblings s i e t ht
  have hpass := tasksOf_processQueue (completeCore s i (Outcome.error e))
  constructor
  · exact ((hpass.1.filter (fun u => u.seq != t.seq)).trans hcore.1)
  · rw [complete, hpass.2]
    exact hcore.2

/-- Witness for C7 on the shared scenario: task A (seq 0) fails while B
(seq 1) is queued; B's record and log entries are untouched. -/
theorem c7_failure_witness :
    cexLoaded.running[0]?
        = some { id := "A", priority := some 5, retries := 0, seq := 0 } ∧
    (List.Perm
      ((tasksOf (complete cexLoaded 0 (Outcome.error 0))).filter
        (fun u => u.seq != (0 : Nat)))
      ((tasksOf cexLoaded).filter (fun u => u.seq != (0 : Nat))) ∧
    (complete cexLoaded 0 (Outcome.error 0)).log.filter
        (fun p => p.1 != (0 : Nat))
      = cexLoaded.log.filter (fun p => p.1 != (0 : Nat))) :=
  ⟨by decide,
   c7_failure_leaves_siblings_unchanged cexLoaded 0 0
     { id := "A", priority := some 5, retries := 0, seq := 0 } (by decide)⟩

/-! ### Priority ordering of the queue (C4) -/

/-- The intended dequeue order: `a` is dequeued before `b` when `a` has
strictly higher priority, or equal priority and earlier submission. -/
def QueueOrder (a b : InternalTask) : Prop :=
  prio b < prio a ∨ (prio a = prio b ∧ a.seq < b.seq)

instance : DecidableRel QueueOrder := fun a b =>
  decidable_of_iff (prio b < prio a ∨ (prio a = prio b ∧ a.seq < b.seq))
    Iff.rfl

/-- Boolean form of `QueueOrder`. -/
def afterOk (a b : InternalTask) : Bool := decide (QueueOrder a b)

/-- The head of the list (the task `queue.shift()` returns) is maximal
in (priority descending, submission order ascending). -/
def headMaximal : List InternalTask → Bool
  | [] => true
  | t :: rest => rest.all (afterOk t)

/-- The whole list is sorted in dequeue order. -/
def queueSorted : List InternalTask → Bool
  | [] => true
  | t :: rest => rest.all (afterOk t) && queueSorted rest

/-- Events that do not re-enqueue a failed task (every completion
delivered by the environment is a success). -/
def okEvent : Ev → Bool
  | Ev.complete _ (Outcome.error _) => false
  | _ => true

/-- Traces in which no task execution fails. -/
def successOnly (es : List Ev) : Bool := es.all okEvent

/-- `queueSorted` is pairwise `QueueOrder`. -/
theorem queueSorted_iff_pairwise (l : List InternalTask) :
    queueSorted l = true ↔ l.Pairwise QueueOrder := by
  induction l with
  | nil => simp [queueSorted]
  | cons t rest ih =>
    simp [queueSorted, List.pairwise_cons, ih, List.all_eq_true, afterOk,
      and_comm]

/-- A sorted queue has a maximal head. -/
theorem headMaximal_of_queueSorted (l : List InternalTask)
    (h : queueSorted l = true) : headMaximal l = true := by
  cases l with
  | nil => rfl
  | cons t rest =>
    simp [queueSorted] at h
    simp only [headMaximal, List.all_eq_true]
    exact h.1

/-- `insertTask` only repositions the inserted element. -/
theorem insertTask_perm (a : InternalTask) :
    ∀ l : List InternalTask, List.Perm (insertTask a l) (a :: l) := by
  intro l
  induction l with
  | nil => simp [insertTask]
  | cons u us ih =>
    by_cases hlt : prio a < prio u
    · simp only [insertTask, if_pos hlt]
      exact (ih.cons u).trans (List.Perm.swap a u us)
    · simp [insertTask, hlt]

/-- `sortQueue` is a permutation. -/
theorem sortQueue_perm : ∀ l : List InternalTask, List.Perm (sortQueue l) l := by
  intro l
  induction l with
  | nil => simp [sortQueue]
  | cons t ts ih =>
    exact (insertTask_perm t (sortQueue ts)).trans (ih.cons t)

/-- Inserting `a` into a sorted list keeps it sorted, provided every
element tying with `a` on priority entered the queue earlier than the
position `a` will take — here expressed by `a.seq` being smaller. -/
theorem insertTask_pairwise (a : InternalTask) :
    ∀ l : List InternalTask, l.Pairwise QueueOrder →
      (∀ u ∈ l, prio u = prio a → a.seq < u.seq) →
      (insertTask a l).Pairwise QueueOrder := by
  intro l
  induction l with
  | nil => intro _ _; simp [insertTask]
  | cons u us ih =>
    intro hs hseq
    rw [List.pairwise_cons] at hs
    by_cases hlt : prio a < prio u
    · simp only [insertTask, if_pos hlt]
      rw [List.pairwise_cons]
      refine ⟨?_, ih hs.2 (fun w hw hpe => hseq w (List.mem_cons_of_mem u hw) hpe)⟩
      intro w hw
      rcases List.mem_cons.mp ((insertTask_perm a us).mem_iff.mp hw) with hwa | hwus
      · subst hwa
        exact Or.inl hlt
      · exact hs.1 w hwus
    · simp only [insertTask, if_neg hlt]
      rw [List.pairwise_cons]
      refine ⟨?_, List.pairwise_cons.mpr ⟨hs.1, hs.2⟩⟩
      intro w hw
      have hua : prio u ≤ prio a := not_lt.mp hlt
      rcases List.mem_cons.mp hw with hwu | hwus
      · subst hwu
        have hseqw := hseq w (List.mem_cons_self w us)
        unfold QueueOrder
        by_cases hpe : prio w = prio a
        · have := hseqw hpe
          omega
        · omega
      · have hqo := hs.1 w hwus
        have hsequ := hseq u (List.mem_cons_self u us)
        unfold QueueOrder at hqo ⊢
        by_cases h4 : prio u = prio a
        · have h5 := hsequ h4
          omega
        · omega

/-- Sorting an already-sorted queue with one freshly appended task (its
`seq` larger than every queued one, as `addTask` guarantees) yields a
sorted queue: the stable sort places the newcomer after its ties. -/
theorem sortQueue_append_fresh (t : InternalTask) :
    ∀ q : List InternalTask, q.Pairwise QueueOrder →
      (∀ u ∈ q, u.seq < t.seq) →
      (sortQueue (q ++ [t])).Pairwise QueueOrder := by
  intro q
  induction q with
  | nil => intro _ _; simp [sortQueue, insertTask]
  | cons a q ih =>
    intro hs hseq
    rw [List.pairwise_cons] at hs
    have hrec := ih hs.2 (fun u hu => hseq u (List.mem_cons_of_mem a hu))
    simp only [List.cons_append, sortQueue]
    apply insertTask_pairwise a _ hrec
    intro u hu hpe
    have hmem : u ∈ q ++ [t] := (sortQueue_perm (q ++ [t])).mem_iff.mp hu
    rcases List.mem_append.mp hmem with hq | hone
    · rcases hs.1 u hq with hlt | ⟨heq, hsq⟩
      · unfold QueueOrder at *
        omega
      · exact hsq
    · have hut : u = t := by simpa using hone
      subst hut
      exact hseq a (List.mem_cons_self a q)

/-- The queue invariant maintained while no failed task is re-enqueued:
the queue is sorted in dequeue order and every queued task was assigned
its arrival index before the current `nextSeq`. -/
def SortedInv (s : SchedState) : Prop :=
  s.queue.Pairwise QueueOrder ∧ ∀ u ∈ s.queue, u.seq < s.nextSeq

/-- Admission preserves the queue invariant (it only drops the head). -/
theorem sortedInv_admitOne (s : SchedState) (h : SortedInv s) :
    SortedInv (admitOne s) := by
  cases hq : s.queue with
  | nil => simpa [admitOne, hq] using h
  | cons t rest =>
    obtain ⟨hp, hb⟩ := h
    rw [hq, List.pairwise_cons] at hp
    constructor
    · simpa [admitOne, hq] using hp.2
    · intro u hu
      simp only [admitOne, hq] at hu ⊢
      exact hb u (by rw [hq]; exact List.mem_cons_of_mem t hu)

/-- The admission loop preserves the queue invariant. -/
theorem sortedInv_processQueueAux (n : Nat) :
    ∀ s : SchedState, SortedInv s → SortedInv (processQueueAux n s) := by
  induction n with
  | zero => intro s h; exact h
  | succ n ih =>
    intro s h
    by_cases hc : canAdmit s
    · simp only [processQueueAux, hc, if_true]
      exact ih _ (sortedInv_admitOne s h)
    · simpa only [processQueueAux, hc, if_false] using h

/-- `addTask` preserves the queue invariant: the new task carries the
largest arrival index, so the stable re-sort keeps dequeue order. -/
theorem sortedInv_addTask (s : SchedState) (id : String) (p : Option Int)
    (h : SortedInv s) : SortedInv (addTask s id p) := by
  apply sortedInv_processQueueAux
  obtain ⟨hp, hb⟩ := h
  constructor
  · exact sortQueue_append_fresh
      { id := id, priority := p, retries := 0, seq := s.nextSeq }
      s.queue hp (fun u hu => hb u hu)
  · intro u hu
    have hmem := (sortQueue_perm _).mem_iff.mp hu
    rcases List.mem_append.mp hmem with hq | hone
    · have := hb u hq
      simp only []
      omega
    · have : u = { id := id, priority := p, retries := 0, seq := s.nextSeq } := by
        simpa using hone
      subst this
      simp

/-- A successful completion leaves the queue and `nextSeq` untouched. -/
theorem sortedInv_completeCore_ok (s : SchedState) (i v : Nat)
    (h : SortedInv s) : SortedInv (completeCore s i (Outcome.ok v)) := by
  cases hget : s.running[i]? with
  | none => simpa [completeCore, hget] using h
  | some t =>
    obtain ⟨hp, hb⟩ := h
    exact ⟨by simpa [completeCore, hget] using hp,
           by simpa [completeCore, hget] using hb⟩

/-- Every event other than a failing completion preserves the queue
invariant. -/
theorem sortedInv_step (s : SchedState) (e : Ev) (he : okEvent e = true)
    (h : SortedInv s) : SortedInv (step s e) := by
  cases e with
  | submit id p => exact sortedInv_addTask s id p h
  | complete i out =>
    cases out with
    | ok v =>
      exact sortedInv_processQueueAux _ _ (sortedInv_completeCore_ok s i v h)
    | error e => simp [okEvent] at he
  | reset => exact sortedInv_processQueueAux _ _ ⟨h.1, h.2⟩
  | pass => exact sortedInv_processQueueAux _ _ h

/-- The queue invariant holds along every success-only trace. -/
theorem sortedInv_run (es : List Ev) :
    ∀ s : SchedState, successOnly es = true → SortedInv s →
      SortedInv (run s es) := by
  induction es with
  | nil => intro s _ h; exact h
  | cons e es ih =>
    intro s hok h
    rw [successOnly, List.all_cons, Bool.and_eq_true] at hok
    exact ih (step s e) hok.2 (sortedInv_step s e hok.1 h)

/-- C4 (amended): along any trace in which no execution fails (so no
failed task is pushed to the back of the queue unsorted), the queue is
always sorted by (priority descending, submission order ascending), and
in particular the task `queue.shift()` dequeues at any admission
opportunity is maximal: strictly higher priority first, FIFO within a
priority band. A failing execution breaks this until the next `addTask`
re-sorts (see the counterexample). -/
theorem c4_dequeue_priority_order (o : RateLimiterOptions) (es : List Ev)
    (h : successOnly es = true) :
    queueSorted (run (mkAntiRateLimit o) es).queue = true ∧
    headMaximal (run (mkAntiRateLimit o) es).queue = true := by
  have hinv : SortedInv (run (mkAntiRateLimit o) es) :=
    sortedInv_run es (mkAntiRateLimit o) h
      ⟨by simp [mkAntiRateLimit], by simp [mkAntiRateLimit]⟩
  have hq := (queueSorted_iff_pairwise _).mpr hinv.1
  exact ⟨hq, headMaximal_of_queueSorted _ hq⟩

/-- Witness for C4: three submissions with priorities 1, 5, default;
the queue stays sorted with a maximal head. -/
theorem c4_dequeue_priority_witness :
    successOnly [Ev.submit "x" (some 1), Ev.submit "y" (some 5),
        Ev.submit "z" none, Ev.pass] = true ∧
    (queueSorted (run (mkAntiRateLimit cexOptions)
        [Ev.submit "x" (some 1), Ev.submit "y" (some 5),
         Ev.submit "z" none, Ev.pass]).queue = true ∧
     headMaximal (run (mkAntiRateLimit cexOptions)
        [Ev.submit "x" (some 1), Ev.submit "y" (some 5),
         Ev.submit "z" none, Ev.pass]).queue = true) :=
  ⟨by decide,
   c4_dequeue_priority_order cexOptions
     [Ev.submit "x" (some 1), Ev.submit "y" (some 5),
      Ev.submit "z" none, Ev.pass] (by decide)⟩

/-- C4 counterexample: at the admission opportunity following A's
failure, the queue is `[B (priority 1), A (priority 5)]` — its head is
NOT maximal — and B is indeed the task dequeued (it ends up in flight),
although A with strictly higher priority was present in the queue. -/
theorem c4_counterexample_head_not_maximal :
    (completeCore cexLoaded 0 (Outcome.error 0)).queue
      = [{ id := "B", priority := some 1, retries := 0, seq := 1 },
         { id := "A", priority := some 5, retries := 1, seq := 0 }] ∧
    headMaximal (completeCore cexLoaded 0 (Outcome.error 0)).queue = false ∧
    cexAfterFail.running
      = [{ id := "B", priority := some 1, retries := 0, seq := 1 }] := by
  decide
